import Mathlib

/-!
# Loganizer: the concurrent log analyzer

A shallow embedding of `internal/analyzer/analyzer.go` (with the value types of
`internal/config/config.go` and the success test of `internal/reporter/reporter.go`).

* The per-task procedure `analyzeLog` is embedded as the sequence of effects it
  performs, given what its three external calls (`os.Stat`, `os.Open`,
  `rand.Intn(151)`) return.
* `AnalyzeAll` is embedded as an interleaving small-step semantics over the
  main goroutine, the closing goroutine and one goroutine per task, sharing the
  `sync.WaitGroup` counter and the bounded `results` channel of the `Analyzer`.
-/

namespace Loganizer

/-! ## Data model -/

/-- One entry of the configuration (`config.LogConfig`). -/
structure LogConfig where
  ID : String
  Path : String
  Type_ : String
  deriving DecidableEq, Repr, Inhabited

/-- The complete configuration (`config.Config`). -/
abbrev Config := List LogConfig

/-- The result of analyzing a single log file (`analyzer.Result`). -/
structure Result where
  LogID : String
  FilePath : String
  Status : String
  Message : String
  ErrorDetails : String
  deriving DecidableEq, Repr, Inhabited

/-- A Go `error` value as far as this program observes it: the text returned by
its `Error()` method and the verdict of `os.IsNotExist` on it. -/
structure OsError where
  Text : String
  NotExist : Bool
  deriving DecidableEq, Repr, Inhabited

/-- The method `err.Error()` of an error returned by the operating system. -/
def OsError.Error (e : OsError) : String := e.Text

/-- The predicate `os.IsNotExist(err)`. -/
def IsNotExist (e : OsError) : Bool := e.NotExist

/-- The error type `FileNotFoundError`: a path and the wrapped cause. -/
structure FileNotFoundError where
  Path : String
  Err : OsError
  deriving DecidableEq, Repr

/-- The method `(*FileNotFoundError).Error`:
`fmt.Sprintf("file not found or inaccessible: %s", e.Path)`. -/
def FileNotFoundError.Error (e : FileNotFoundError) : String :=
  "file not found or inaccessible: " ++ e.Path

/-- The method `(*FileNotFoundError).Unwrap`. -/
def FileNotFoundError.Unwrap (e : FileNotFoundError) : OsError := e.Err

/-- The two statuses a Result can have for the reporter: `PrintSummary` counts a
Result as successful when `result.Status == "OK"` and as failed otherwise. -/
inductive StatusKind where
  | SUCCESS
  | FAILURE
  deriving DecidableEq, Repr

/-- The status of a Result as `PrintSummary` classifies it. -/
def Result.statusKind (r : Result) : StatusKind :=
  if r.Status = "OK" then StatusKind.SUCCESS else StatusKind.FAILURE

/-- The pair by which a Result is correlated with its descriptor. -/
def Result.key (r : Result) : String × String := (r.LogID, r.FilePath)

/-- The pair by which a descriptor is correlated with its Result. -/
def LogConfig.key (c : LogConfig) : String × String := (c.ID, c.Path)

/-! ## The task runner `analyzeLog` -/

/-- What the three external calls of one run of `analyzeLog` return: the error
of `os.Stat(cfg.Path)` (`none` for `nil`), the error of `os.Open(cfg.Path)`, and
the value of `rand.Intn(151)`. -/
structure Probe where
  statErr : Option OsError
  openErr : Option OsError
  intn : Nat
  deriving Repr, Inhabited

/-- The constant `time.Millisecond`, in nanoseconds (the unit of `time.Duration`). -/
def Millisecond : Nat := 1000000

/-- The expression `time.Duration(50+rand.Intn(151)) * time.Millisecond`, where
`r` is the value returned by `rand.Intn(151)`. -/
def sleepDuration (r : Nat) : Nat := (50 + r) * Millisecond

/-- The effects of `analyzeLog` that are visible outside its own locals. -/
inductive Effect where
  | osStat (path : String)
  | osOpen (path : String)
  | fileClose
  | sleep (d : Nat)
  | send (r : Result)
  | wgDone
  deriving DecidableEq, Repr

/-- The method `(*Analyzer).analyzeLog`, as the sequence of effects it performs
in program order. The deferred `a.wg.Done()` runs last on every path. -/
def analyzeLog (p : Probe) (cfg : LogConfig) : List Effect :=
  let result : Result :=
    { LogID := cfg.ID, FilePath := cfg.Path, Status := "", Message := "", ErrorDetails := "" }
  match p.statErr with
  | some err =>
    if IsNotExist err then
      let fileErr : FileNotFoundError := { Path := cfg.Path, Err := err }
      [Effect.osStat cfg.Path,
       Effect.send { result with
         Status := "FAILED", Message := "File not found.", ErrorDetails := fileErr.Error },
       Effect.wgDone]
    else
      [Effect.osStat cfg.Path,
       Effect.send { result with
         Status := "FAILED", Message := "File access error.", ErrorDetails := err.Error },
       Effect.wgDone]
  | none =>
    match p.openErr with
    | some err =>
      let fileErr : FileNotFoundError := { Path := cfg.Path, Err := err }
      [Effect.osStat cfg.Path, Effect.osOpen cfg.Path,
       Effect.send { result with
         Status := "FAILED", Message := "File not accessible.", ErrorDetails := fileErr.Error },
       Effect.wgDone]
    | none =>
      [Effect.osStat cfg.Path, Effect.osOpen cfg.Path, Effect.fileClose,
       Effect.sleep (sleepDuration p.intn),
       Effect.send { result with
         Status := "OK", Message := "Analysis completed successfully.", ErrorDetails := "" },
       Effect.wgDone]

/-- The Results a sequence of effects sends on the channel, in order. -/
def sends : List Effect → List Result
  | [] => []
  | Effect.send r :: es => r :: sends es
  | _ :: es => sends es

/-- Whether an effect is a call of `os.Open`. -/
def Effect.isOpen : Effect → Bool
  | Effect.osOpen _ => true
  | _ => false

/-- Whether an effect is a call of `time.Sleep`. -/
def Effect.isSleep : Effect → Bool
  | Effect.sleep _ => true
  | _ => false

/-- A text carries another when the other occurs in it as a contiguous piece. -/
def carries (text piece : String) : Prop := piece.toList <:+: text.toList

instance (text piece : String) : Decidable (carries text piece) := by
  unfold carries; infer_instance

/-! ## The engine: `Analyzer`, `NewAnalyzer`, `AnalyzeAll` -/

/-- A Go channel of Results (`chan Result`): its capacity, the buffered values
(oldest first) and whether it has been closed. -/
structure Chan where
  cap : Nat
  buf : List Result
  closed : Bool
  deriving DecidableEq, Repr

/-- The type `Analyzer`: the counter of its `sync.WaitGroup` and its channel. -/
structure Analyzer where
  wg : Nat
  results : Chan
  deriving DecidableEq, Repr

/-- The constructor body of `NewAnalyzer` for a channel made with capacity `cap`:
a zero WaitGroup and an open, empty channel. -/
def newAnalyzerWith (cap : Nat) : Analyzer :=
  { wg := 0, results := { cap := cap, buf := [], closed := false } }

/-- The function `NewAnalyzer`: `results: make(chan Result, 100)`. -/
def NewAnalyzer : Analyzer := newAnalyzerWith 100

/-- Where the goroutine that runs `AnalyzeAll` stands. -/
inductive MainPC where
  | loopAdd (k : Nat)
  | loopGo (k : Nat)
  | collect
  | returned
  deriving DecidableEq, Repr

/-- Where the goroutine `go func() { a.wg.Wait(); close(a.results) }()` stands. -/
inductive CloserPC where
  | absent
  | wait
  | close
  | finished
  deriving DecidableEq, Repr

/-- The state of one call of `AnalyzeAll`: the shared Analyzer, the position of
the calling goroutine, the effects each launched `analyzeLog` goroutine has
still to perform (in launch order), the position of the closing goroutine, the
local slice `allResults`, and whether a goroutine has panicked. -/
structure State where
  a : Analyzer
  main : MainPC
  workers : List (List Effect)
  closer : CloserPC
  allResults : List Result
  panicked : Bool
  deriving DecidableEq, Repr

/-- The goroutines of one call of `AnalyzeAll`. -/
inductive Tid where
  | main
  | closer
  | worker (i : Nat)
  deriving DecidableEq, Repr

/-- One step of the calling goroutine.

* `loopAdd k`: the head of `for _, cfg := range configs`; with an element left it
  runs `a.wg.Add(1)`, otherwise it launches the closing goroutine and enters
  `for result := range a.results`.
* `loopGo k`: `go a.analyzeLog(cfg)`; the probe `env k` fixes what the external
  calls of that goroutine will return.
* `collect`: one round of `for result := range a.results`: a buffered value is
  received and appended; on a closed and empty channel the loop ends and the
  function returns; otherwise the goroutine is blocked. -/
def stepMain (env : Nat → Probe) (cfgs : Config) (s : State) : Option State :=
  match s.main with
  | MainPC.loopAdd k =>
    if k < cfgs.length then
      some { s with a := { s.a with wg := s.a.wg + 1 }, main := MainPC.loopGo k }
    else
      some { s with closer := CloserPC.wait, main := MainPC.collect }
  | MainPC.loopGo k =>
    match cfgs[k]? with
    | some cfg =>
      some { s with workers := s.workers ++ [analyzeLog (env k) cfg], main := MainPC.loopAdd (k + 1) }
    | none => none
  | MainPC.collect =>
    match s.a.results.buf with
    | x :: rest =>
      some { s with
        a := { s.a with results := { s.a.results with buf := rest } },
        allResults := s.allResults ++ [x] }
    | [] =>
      if s.a.results.closed then some { s with main := MainPC.returned } else none
  | MainPC.returned => none

/-- One step of the closing goroutine: `a.wg.Wait()` passes only when the counter
is zero; `close(a.results)` panics on a channel that is already closed. -/
def stepCloser (s : State) : Option State :=
  match s.closer with
  | CloserPC.absent => none
  | CloserPC.wait =>
    if s.a.wg = 0 then some { s with closer := CloserPC.close } else none
  | CloserPC.close =>
    if s.a.results.closed then some { s with panicked := true }
    else some { s with
      a := { s.a with results := { s.a.results with closed := true } },
      closer := CloserPC.finished }
  | CloserPC.finished => none

/-- One step of the `analyzeLog` goroutine launched `i`-th: it performs its next
effect.

* `a.results <- result` panics on a closed channel (a panic crashes the whole
  program: no goroutine moves afterwards); it enqueues when the buffer
  has room; with no room it hands the value directly to the calling goroutine
  when that one is waiting in its receive loop on an empty buffer; otherwise the
  goroutine is blocked and keeps its Result.
* `a.wg.Done()` decrements the counter and panics when it would become negative.
* The other effects touch nothing shared. -/
def stepWorker (s : State) (i : Nat) : Option State :=
  match s.workers[i]? with
  | none => none
  | some [] => none
  | some (Effect.send r :: rest) =>
    if s.a.results.closed then some { s with panicked := true }
    else if s.a.results.buf.length < s.a.results.cap then
      some { s with
        a := { s.a with results := { s.a.results with buf := s.a.results.buf ++ [r] } },
        workers := s.workers.set i rest }
    else if s.main = MainPC.collect ∧ s.a.results.buf = [] then
      some { s with allResults := s.allResults ++ [r], workers := s.workers.set i rest }
    else none
  | some (Effect.wgDone :: rest) =>
    if s.a.wg = 0 then some { s with panicked := true }
    else some { s with a := { s.a with wg := s.a.wg - 1 }, workers := s.workers.set i rest }
  | some (_ :: rest) => some { s with workers := s.workers.set i rest }

/-- One step of goroutine `t`; `none` when `t` cannot move (it is blocked, has
finished or was never launched, or the program has crashed on a panic). -/
def step (env : Nat → Probe) (cfgs : Config) (s : State) (t : Tid) : Option State :=
  if s.panicked then none
  else
    match t with
    | Tid.main => stepMain env cfgs s
    | Tid.closer => stepCloser s
    | Tid.worker i => stepWorker s i

/-- The goroutines that exist in a state. -/
def tids (s : State) : List Tid :=
  Tid.main :: Tid.closer :: (List.range s.workers.length).map Tid.worker

/-- The goroutines that can move in a state. -/
def enabled (env : Nat → Probe) (cfgs : Config) (s : State) : List Tid :=
  (tids s).filter (fun t => (step env cfgs s t).isSome)

/-- A scheduler: in every state it picks, by position, one of the goroutines that
can move. Every interleaving of the goroutines is the choice of some scheduler. -/
abbrev Scheduler := State → Nat

/-- Runs the program under scheduler `σ` until the calling goroutine has returned
from `AnalyzeAll`, no goroutine can move, or the fuel is spent. -/
def run (env : Nat → Probe) (cfgs : Config) (σ : Scheduler) : Nat → State → State
  | 0, s => s
  | fuel + 1, s =>
    if s.main = MainPC.returned then s
    else
      match enabled env cfgs s with
      | [] => s
      | t :: ts =>
        match step env cfgs s ((t :: ts).getD (σ s % (ts.length + 1)) t) with
        | some s' => run env cfgs σ fuel s'
        | none => s

/-- Runs the goroutines in the given order, each for one step; `none` when one of
them cannot move at its turn. -/
def exec (env : Nat → Probe) (cfgs : Config) : State → List Tid → Option State
  | s, [] => some s
  | s, t :: ts =>
    match step env cfgs s t with
    | some s' => exec env cfgs s' ts
    | none => none

/-- The state in which a call of `AnalyzeAll` on Analyzer `a` starts. -/
def AnalyzeAll.init (a : Analyzer) : State :=
  { a := a, main := MainPC.loopAdd 0, workers := [], closer := CloserPC.absent,
    allResults := [], panicked := false }

/-- A number of steps no execution of `AnalyzeAll` exceeds. -/
def AnalyzeAll.fuel (a : Analyzer) (cfgs : Config) : Nat :=
  14 * cfgs.length + 4 + a.results.buf.length

/-- The state in which the call `a.AnalyzeAll(configs)` ends under scheduler `σ`. -/
def AnalyzeAll.final (env : Nat → Probe) (σ : Scheduler) (a : Analyzer) (cfgs : Config) : State :=
  run env cfgs σ (AnalyzeAll.fuel a cfgs) (AnalyzeAll.init a)

/-- The method `(*Analyzer).AnalyzeAll` under scheduler `σ`: the slice it returns,
or `none` when the call does not return (deadlock or crash). -/
def AnalyzeAll (env : Nat → Probe) (σ : Scheduler) (a : Analyzer) (cfgs : Config) :
    Option (List Result) :=
  let s := AnalyzeAll.final env σ a cfgs
  if s.main = MainPC.returned then some s.allResults else none

/-- The Result task `i` sends: the one its `analyzeLog` goroutine computes from
its own descriptor and its own probe alone. -/
def taskResult (env : Nat → Probe) (cfgs : Config) (i : Nat) : Result :=
  (sends (analyzeLog (env i) (cfgs.getD i default))).headD default

/-- The Results of the first `k` tasks, in submission order. -/
def spawnedResults (env : Nat → Probe) (cfgs : Config) (k : Nat) : List Result :=
  (List.range k).map (taskResult env cfgs)

/-- The Results of all tasks, in submission order. -/
def expectedResults (env : Nat → Probe) (cfgs : Config) : List Result :=
  spawnedResults env cfgs cfgs.length

/-! ## Invariant and progress measure of `AnalyzeAll` -/

/-- The Results the launched goroutines have still to send. -/
def pendingSends : List (List Effect) → List Result
  | [] => []
  | w :: ws => sends w ++ pendingSends ws

/-- The number of `wg.Done()` calls an effect sequence still contains. -/
def dones : List Effect → Nat
  | [] => 0
  | Effect.wgDone :: es => dones es + 1
  | _ :: es => dones es

/-- The number of `wg.Done()` calls the launched goroutines have still to make. -/
def pendingDones : List (List Effect) → Nat
  | [] => 0
  | w :: ws => dones w + pendingDones ws

/-- The number of steps the launched goroutines have still to make, counted twice. -/
def weight : List (List Effect) → Nat
  | [] => 0
  | w :: ws => 2 * w.length + weight ws

/-- A goroutine that has effects left ends with its deferred `wg.Done()`. -/
def endsWithDone (w : List Effect) : Prop := w = [] ∨ w.getLast? = some Effect.wgDone

/-- The progress measure of the calling goroutine. -/
def mainMeasure (n : Nat) : MainPC → Nat
  | MainPC.loopAdd k => 14 * (n - k) + 2
  | MainPC.loopGo k => 14 * (n - k) + 1
  | MainPC.collect => 1
  | MainPC.returned => 0

/-- The progress measure of the closing goroutine. -/
def closerMeasure : CloserPC → Nat
  | CloserPC.absent => 2
  | CloserPC.wait => 2
  | CloserPC.close => 1
  | CloserPC.finished => 0

/-- The progress measure of a state: every step makes it smaller. -/
def stepsLeft (cfgs : Config) (s : State) : Nat :=
  mainMeasure cfgs.length s.main + closerMeasure s.closer + weight s.workers
    + s.a.results.buf.length

/-- What the calling goroutine's position says about the other goroutines. -/
def mainInv (cfgs : Config) (s : State) : Prop :=
  match s.main with
  | MainPC.loopAdd k =>
    k = s.workers.length ∧ k ≤ cfgs.length ∧ s.closer = CloserPC.absent
      ∧ s.a.wg = pendingDones s.workers
  | MainPC.loopGo k =>
    k = s.workers.length ∧ k < cfgs.length ∧ s.closer = CloserPC.absent
      ∧ s.a.wg = pendingDones s.workers + 1
  | MainPC.collect =>
    s.workers.length = cfgs.length ∧ s.closer ≠ CloserPC.absent
      ∧ s.a.wg = pendingDones s.workers
  | MainPC.returned =>
    s.workers.length = cfgs.length ∧ s.closer ≠ CloserPC.absent
      ∧ s.a.wg = pendingDones s.workers
      ∧ s.a.results.closed = true ∧ s.a.results.buf = []

/-- What the closing goroutine's position says about the shared state. -/
def closerInv (s : State) : Prop :=
  match s.closer with
  | CloserPC.absent => s.a.results.closed = false
  | CloserPC.wait => s.a.results.closed = false
  | CloserPC.close => s.a.results.closed = false ∧ s.a.wg = 0
  | CloserPC.finished => s.a.results.closed = true ∧ s.a.wg = 0

/-- The invariant of a call of `AnalyzeAll` on a fresh Analyzer. -/
structure Inv (env : Nat → Probe) (cfgs : Config) (s : State) : Prop where
  alive : s.panicked = false
  account : (s.allResults ++ s.a.results.buf ++ pendingSends s.workers).Perm
    (spawnedResults env cfgs s.workers.length)
  shape : ∀ w ∈ s.workers, endsWithDone w ∧ w.length ≤ 6
  mainOk : mainInv cfgs s
  closerOk : closerInv s

/-! ## Sample descriptors, probes and schedules -/

/-- A descriptor whose target does not exist. -/
def missingCfg : LogConfig := { ID := "b", Path := "/tmp/missing.log", Type_ := "app" }

/-- The error of a stat probe on a path that does not exist. -/
def missingErr : OsError :=
  { Text := "stat /tmp/missing.log: no such file or directory", NotExist := true }

/-- The external calls of a run on a target that does not exist. -/
def missingProbe : Probe := { statErr := some missingErr, openErr := none, intn := 0 }

/-- A descriptor whose target exists but is protected. -/
def lockedCfg : LogConfig := { ID := "c", Path := "/var/log/secret.log", Type_ := "sys" }

/-- The error of an open call that is refused. -/
def lockedErr : OsError :=
  { Text := "open /var/log/secret.log: permission denied", NotExist := false }

/-- The external calls of a run whose stat passes and whose open is refused. -/
def lockedProbe : Probe := { statErr := none, openErr := some lockedErr, intn := 0 }

/-- The error of a stat probe that is refused. -/
def deniedErr : OsError :=
  { Text := "stat /var/log/secret.log: permission denied", NotExist := false }

/-- The external calls of a run whose stat is refused. -/
def deniedProbe : Probe := { statErr := some deniedErr, openErr := none, intn := 0 }

/-- A descriptor whose target exists and is readable. -/
def readableCfg : LogConfig := { ID := "a", Path := "/tmp/exists.log", Type_ := "app" }

/-- The external calls of a run on a readable target. -/
def readableProbe : Probe := { statErr := none, openErr := none, intn := 75 }

/-- The two descriptors of the example scenario: a readable target, then a
missing one. -/
def exCfgs : Config := [readableCfg, missingCfg]

/-- What the external calls return in the example scenario. -/
def exEnv : Nat → Probe := fun i => if i = 0 then readableProbe else missingProbe

/-- The scheduler that always runs the first goroutine that can move: the
calling goroutine before the closing one, before the tasks in launch order. -/
def mainFirst : Scheduler := fun _ => 0

/-- An interleaving of the example scenario on a channel of capacity 100 in which
the task submitted second completes first. -/
def exSched : List Tid :=
  [Tid.main, Tid.main, Tid.main, Tid.main, Tid.main,
   Tid.worker 1, Tid.worker 1, Tid.worker 1,
   Tid.worker 0, Tid.worker 0, Tid.worker 0, Tid.worker 0, Tid.worker 0, Tid.worker 0,
   Tid.closer, Tid.closer, Tid.main, Tid.main, Tid.main]

/-- The state the interleaving `exSched` ends in. -/
def exFinal : State :=
  (exec exEnv exCfgs (AnalyzeAll.init NewAnalyzer) exSched).getD (AnalyzeAll.init NewAnalyzer)

/-- An interleaving of the example scenario on an unbuffered channel: every send
is a direct handoff to the receive loop. -/
def exSched0 : List Tid :=
  [Tid.main, Tid.main, Tid.main, Tid.main, Tid.main,
   Tid.worker 1, Tid.worker 1, Tid.worker 1,
   Tid.worker 0, Tid.worker 0, Tid.worker 0, Tid.worker 0, Tid.worker 0, Tid.worker 0,
   Tid.closer, Tid.closer, Tid.main]

/-- The state the interleaving `exSched0` ends in. -/
def exFinal0 : State :=
  (exec exEnv exCfgs (AnalyzeAll.init (newAnalyzerWith 0)) exSched0).getD
    (AnalyzeAll.init (newAnalyzerWith 0))

/-- A state of the example scenario on an unbuffered channel in which the first
task is at its send while the calling goroutine is still launching tasks. -/
def exBlocked : State :=
  (exec exEnv exCfgs (AnalyzeAll.init (newAnalyzerWith 0))
    [Tid.main, Tid.main, Tid.worker 0, Tid.worker 0, Tid.worker 0, Tid.worker 0]).getD
    (AnalyzeAll.init (newAnalyzerWith 0))

/-! ## Lemmas on the bookkeeping functions -/

theorem pendingSends_append (l1 l2 : List (List Effect)) :
    pendingSends (l1 ++ l2) = pendingSends l1 ++ pendingSends l2 := by
  induction l1 with
  | nil => rfl
  | cons w ws ih => simp [pendingSends, ih]

theorem pendingDones_append (l1 l2 : List (List Effect)) :
    pendingDones (l1 ++ l2) = pendingDones l1 + pendingDones l2 := by
  induction l1 with
  | nil => simp [pendingDones]
  | cons w ws ih => simp [pendingDones, ih, Nat.add_assoc]

theorem weight_append (l1 l2 : List (List Effect)) :
    weight (l1 ++ l2) = weight l1 + weight l2 := by
  induction l1 with
  | nil => simp [weight]
  | cons w ws ih => simp [weight, ih, Nat.add_assoc]

/-- A goroutine list with an entry at position `i` splits around that entry, and
replacing the entry replaces the middle of the split. -/
theorem workers_split (ws : List (List Effect)) (i : Nat) (w : List Effect)
    (h : ws[i]? = some w) :
    ∃ l1 l2, ws = l1 ++ w :: l2 ∧ ∀ w2, ws.set i w2 = l1 ++ w2 :: l2 := by
  induction ws generalizing i with
  | nil => simp at h
  | cons x xs ih =>
    cases i with
    | zero =>
      simp at h
      exact ⟨[], xs, by simp [h], fun w2 => by simp⟩
    | succ j =>
      simp at h
      obtain ⟨l1, l2, h1, h2⟩ := ih j h
      exact ⟨x :: l1, l2, by simp [h1], fun w2 => by simp [h2]⟩

theorem endsWithDone_tail (e : Effect) (rest : List Effect) (h : endsWithDone (e :: rest)) :
    endsWithDone rest := by
  cases rest with
  | nil => exact Or.inl rfl
  | cons b l =>
    right
    rcases h with h | h
    · simp at h
    · simpa [List.getLast?_cons_cons] using h

theorem dones_pos_of_getLast (w : List Effect) (h : w.getLast? = some Effect.wgDone) :
    0 < dones w := by
  induction w with
  | nil => simp at h
  | cons e rest ih =>
    cases rest with
    | nil =>
      simp at h
      subst h
      simp [dones]
    | cons b l =>
      rw [List.getLast?_cons_cons] at h
      have := ih h
      cases e <;> simp [dones] <;> omega

theorem eq_nil_of_dones_zero (w : List Effect) (h : endsWithDone w) (hz : dones w = 0) :
    w = [] := by
  rcases h with h | h
  · exact h
  · have := dones_pos_of_getLast w h
    omega

theorem all_nil_of_pendingDones_zero (ws : List (List Effect))
    (h : ∀ w ∈ ws, endsWithDone w ∧ w.length ≤ 6) (hz : pendingDones ws = 0) :
    ∀ w ∈ ws, w = [] := by
  induction ws with
  | nil => simp
  | cons x xs ih =>
    simp only [pendingDones] at hz
    intro w hw
    rcases List.mem_cons.mp hw with rfl | hw
    · exact eq_nil_of_dones_zero _ (h _ (List.mem_cons_self _ _)).1 (by omega)
    · exact ih (fun v hv => h v (List.mem_cons_of_mem _ hv)) (by omega) w hw

theorem pendingSends_of_all_nil (ws : List (List Effect)) (h : ∀ w ∈ ws, w = []) :
    pendingSends ws = [] := by
  induction ws with
  | nil => rfl
  | cons x xs ih =>
    have hx : x = [] := h x (List.mem_cons_self _ _)
    subst hx
    simp [pendingSends, sends, ih (fun v hv => h v (List.mem_cons_of_mem _ hv))]

/-- Some goroutine still has an effect to perform when a `wg.Done()` is pending. -/
theorem exists_nonempty_of_pendingDones_pos (ws : List (List Effect))
    (h : 0 < pendingDones ws) :
    ∃ (i : Nat) (e : Effect) (rest : List Effect), ws[i]? = some (e :: rest) := by
  induction ws with
  | nil => simp [pendingDones] at h
  | cons x xs ih =>
    cases x with
    | nil =>
      simp only [pendingDones, dones] at h
      obtain ⟨i, e, rest, hi⟩ := ih (by omega)
      exact ⟨i + 1, e, rest, by simpa using hi⟩
    | cons e rest => exact ⟨0, e, rest, by simp⟩

/-! ## Facts about `analyzeLog` used by the engine -/

theorem analyzeLog_endsWithDone (p : Probe) (cfg : LogConfig) :
    endsWithDone (analyzeLog p cfg) := by
  right
  unfold analyzeLog
  rcases p with ⟨st, op, r⟩
  cases st with
  | some err => by_cases hn : IsNotExist err = true <;> simp [hn]
  | none => cases op <;> simp

theorem analyzeLog_length (p : Probe) (cfg : LogConfig) : (analyzeLog p cfg).length ≤ 6 := by
  unfold analyzeLog
  rcases p with ⟨st, op, r⟩
  cases st with
  | some err => by_cases hn : IsNotExist err = true <;> simp [hn]
  | none => cases op <;> simp

theorem analyzeLog_dones (p : Probe) (cfg : LogConfig) : dones (analyzeLog p cfg) = 1 := by
  unfold analyzeLog
  rcases p with ⟨st, op, r⟩
  cases st with
  | some err => by_cases hn : IsNotExist err = true <;> simp [hn, dones]
  | none => cases op <;> simp [dones]

/-- Every run of `analyzeLog` sends exactly one Result. -/
theorem analyzeLog_sends_one (p : Probe) (cfg : LogConfig) :
    sends (analyzeLog p cfg) = [(sends (analyzeLog p cfg)).headD default] := by
  unfold analyzeLog
  rcases p with ⟨st, op, r⟩
  cases st with
  | some err => by_cases hn : IsNotExist err = true <;> simp [hn, sends]
  | none => cases op <;> simp [sends]

/-- The Result `analyzeLog` sends carries the ID and the path of its descriptor. -/
theorem analyzeLog_key (p : Probe) (cfg : LogConfig) :
    ((sends (analyzeLog p cfg)).headD default).key = cfg.key := by
  unfold analyzeLog
  rcases p with ⟨st, op, r⟩
  cases st with
  | some err => by_cases hn : IsNotExist err = true <;> simp [hn, sends, Result.key, LogConfig.key]
  | none => cases op <;> simp [sends, Result.key, LogConfig.key]

theorem spawnedResults_succ (env : Nat → Probe) (cfgs : Config) (k : Nat) :
    spawnedResults env cfgs (k + 1) = spawnedResults env cfgs k ++ [taskResult env cfgs k] := by
  simp [spawnedResults, List.range_succ]

theorem spawnedResults_length (env : Nat → Probe) (cfgs : Config) (k : Nat) :
    (spawnedResults env cfgs k).length = k := by
  simp [spawnedResults]

theorem expectedResults_keys (env : Nat → Probe) (cfgs : Config) :
    (expectedResults env cfgs).map Result.key = cfgs.map LogConfig.key := by
  apply List.ext_getElem
  · simp [expectedResults, spawnedResults]
  · intro i h1 h2
    have hi : i < cfgs.length := by simpa using h2
    have hk := analyzeLog_key (env i) cfgs[i]
    simpa [expectedResults, spawnedResults, taskResult, List.getElem?_eq_getElem hi] using hk

/-! ## The invariant is inductive and every step makes progress -/

theorem stepMain_inv (env : Nat → Probe) (cfgs : Config) (s s' : State)
    (hI : Inv env cfgs s) (h : stepMain env cfgs s = some s') :
    Inv env cfgs s' ∧ stepsLeft cfgs s' < stepsLeft cfgs s := by
  rcases s with ⟨⟨wg, ⟨cap, buf, closed⟩⟩, main, workers, closer, allResults, panicked⟩
  obtain ⟨alive, account, shape, mainOk, closerOk⟩ := hI
  simp only at alive account shape
  cases main with
  | loopAdd k =>
    simp only [mainInv] at mainOk
    obtain ⟨hk, hle, hc, hwg⟩ := mainOk
    subst hc
    simp only [closerInv] at closerOk
    by_cases hlt : k < cfgs.length
    · simp only [stepMain, hlt, if_true, Option.some.injEq] at h
      subst h
      refine ⟨⟨alive, account, shape, ?_, ?_⟩, ?_⟩
      · exact ⟨hk, hlt, rfl, by show wg + 1 = pendingDones workers + 1; omega⟩
      · exact closerOk
      · simp only [stepsLeft, mainMeasure]; omega
    · simp only [stepMain, hlt, if_false, Option.some.injEq] at h
      subst h
      refine ⟨⟨alive, account, shape, ?_, ?_⟩, ?_⟩
      · exact ⟨by show workers.length = _; omega, by simp, hwg⟩
      · exact closerOk
      · simp only [stepsLeft, mainMeasure, closerMeasure]; omega
  | loopGo k =>
    simp only [mainInv] at mainOk
    obtain ⟨hk, hlt, hc, hwg⟩ := mainOk
    subst hc
    simp only [closerInv] at closerOk
    have hget : cfgs[k]? = some cfgs[k] := List.getElem?_eq_getElem hlt
    simp only [stepMain, hget, Option.some.injEq] at h
    subst h
    have htask : sends (analyzeLog (env k) cfgs[k]) = [taskResult env cfgs k] := by
      have := analyzeLog_sends_one (env k) cfgs[k]
      simpa [taskResult, hget] using this
    refine ⟨⟨alive, ?_, ?_, ?_, ?_⟩, ?_⟩
    · simp only [List.length_append, List.length_singleton, pendingSends_append, pendingSends,
        List.append_nil, htask]
      rw [← hk, spawnedResults_succ]
      rw [hk, ← List.append_assoc]
      exact List.Perm.append_right _ account
    · intro w hw
      rcases List.mem_append.mp hw with hw | hw
      · exact shape w hw
      · simp only [List.mem_singleton] at hw
        subst hw
        exact ⟨analyzeLog_endsWithDone _ _, analyzeLog_length _ _⟩
    · refine ⟨?_, ?_, rfl, ?_⟩
      · simp only [List.length_append, List.length_singleton]; omega
      · omega
      · simp only [pendingDones_append, pendingDones, analyzeLog_dones]; omega
    · exact closerOk
    · have := analyzeLog_length (env k) cfgs[k]
      simp only [stepsLeft, mainMeasure, weight_append, weight]
      omega
  | collect =>
    simp only [mainInv] at mainOk
    obtain ⟨hlen, hc, hwg⟩ := mainOk
    cases buf with
    | nil =>
      by_cases hcl : closed = true
      · subst hcl
        simp only [stepMain, if_true, Option.some.injEq] at h
        subst h
        refine ⟨⟨alive, account, shape, ?_, ?_⟩, ?_⟩
        · exact ⟨hlen, hc, hwg, rfl, rfl⟩
        · exact closerOk
        · simp only [stepsLeft, mainMeasure]; omega
      · simp [stepMain, hcl] at h
    | cons x rest =>
      simp only [stepMain, Option.some.injEq] at h
      subst h
      refine ⟨⟨alive, ?_, shape, ?_, ?_⟩, ?_⟩
      · simpa using account
      · exact ⟨hlen, hc, hwg⟩
      · exact closerOk
      · simp only [stepsLeft, mainMeasure, List.length_cons]; omega
  | returned => simp [stepMain] at h

/-- Once the channel is closed, or the closing goroutine is past its wait, no
launched goroutine has anything left to do. -/
theorem workers_done_of_wg_zero (env : Nat → Probe) (cfgs : Config) (s : State)
    (hI : Inv env cfgs s) (hc : s.closer = CloserPC.close ∨ s.closer = CloserPC.finished) :
    ∀ w ∈ s.workers, w = [] := by
  rcases s with ⟨⟨wg, ⟨cap, buf, closed⟩⟩, main, workers, closer, allResults, panicked⟩
  obtain ⟨alive, account, shape, mainOk, closerOk⟩ := hI
  simp only at alive account shape hc
  have hwg : wg = 0 := by
    rcases hc with hc | hc <;> subst hc <;> exact closerOk.2
  have hp : pendingDones workers = 0 := by
    cases main with
    | loopAdd k =>
      obtain ⟨_, _, hc2, _⟩ := mainOk
      simp only at hc2
      rcases hc with hc | hc <;> rw [hc] at hc2 <;> cases hc2
    | loopGo k =>
      obtain ⟨_, _, hc2, _⟩ := mainOk
      simp only at hc2
      rcases hc with hc | hc <;> rw [hc] at hc2 <;> cases hc2
    | collect =>
      obtain ⟨_, _, h3⟩ := mainOk
      simp only at h3
      omega
    | returned =>
      obtain ⟨_, _, h3, _⟩ := mainOk
      simp only at h3
      omega
  exact all_nil_of_pendingDones_zero workers shape hp

theorem closer_of_closed (env : Nat → Probe) (cfgs : Config) (s : State)
    (hI : Inv env cfgs s) (hc : s.a.results.closed = true) : s.closer = CloserPC.finished := by
  rcases s with ⟨⟨wg, ⟨cap, buf, closed⟩⟩, main, workers, closer, allResults, panicked⟩
  have h := hI.closerOk
  simp only at hc
  subst hc
  cases closer <;> simp [closerInv] at h ⊢

theorem stepCloser_inv (env : Nat → Probe) (cfgs : Config) (s s' : State)
    (hI : Inv env cfgs s) (h : stepCloser s = some s') :
    Inv env cfgs s' ∧ stepsLeft cfgs s' < stepsLeft cfgs s := by
  rcases s with ⟨⟨wg, ⟨cap, buf, closed⟩⟩, main, workers, closer, allResults, panicked⟩
  obtain ⟨alive, account, shape, mainOk, closerOk⟩ := hI
  simp only at alive account shape
  cases closer with
  | absent => simp [stepCloser] at h
  | finished => simp [stepCloser] at h
  | wait =>
    by_cases hz : wg = 0
    · subst hz
      simp only [stepCloser, if_true, Option.some.injEq] at h
      subst h
      refine ⟨⟨alive, account, shape, ?_, ?_⟩, ?_⟩
      · cases main with
        | loopAdd k => exact absurd mainOk.2.2.1 (by simp)
        | loopGo k => exact absurd mainOk.2.2.1 (by simp)
        | collect => exact ⟨mainOk.1, by simp, mainOk.2.2⟩
        | returned => exact ⟨mainOk.1, by simp, mainOk.2.2⟩
      · exact ⟨closerOk, rfl⟩
      · simp only [stepsLeft, closerMeasure]; omega
    · simp [stepCloser, hz] at h
  | close =>
    obtain ⟨hcl, hz⟩ := closerOk
    simp only at hcl hz
    subst hcl hz
    simp only [stepCloser, Bool.false_eq_true, if_false, Option.some.injEq] at h
    subst h
    refine ⟨⟨alive, account, shape, ?_, ?_⟩, ?_⟩
    · cases main with
      | loopAdd k => exact absurd mainOk.2.2.1 (by simp)
      | loopGo k => exact absurd mainOk.2.2.1 (by simp)
      | collect => exact ⟨mainOk.1, by simp, mainOk.2.2⟩
      | returned => exact absurd mainOk.2.2.2.1 (by simp)
    · exact ⟨rfl, rfl⟩
    · simp only [stepsLeft, closerMeasure]; omega

theorem mainInv_transfer (cfgs : Config) (s s' : State)
    (hm : s'.main = s.main) (hl : s'.workers.length = s.workers.length)
    (hc : s'.closer = s.closer)
    (hw : s'.a.wg + pendingDones s.workers = s.a.wg + pendingDones s'.workers)
    (hr : s.main = MainPC.returned → s'.a.results.closed = true ∧ s'.a.results.buf = [])
    (h : mainInv cfgs s) : mainInv cfgs s' := by
  rcases s with ⟨⟨wg, ⟨cap, buf, closed⟩⟩, main, workers, closer, allResults, panicked⟩
  rcases s' with ⟨⟨wg', ⟨cap', buf', closed'⟩⟩, main', workers', closer', allResults', panicked'⟩
  simp only at hm hl hc hw hr
  subst hm hc
  cases main' with
  | loopAdd k =>
    obtain ⟨h1, h2, h3, h4⟩ := h
    simp only at h1 h2 h3 h4
    exact ⟨by show k = workers'.length; omega, h2, h3, by show wg' = pendingDones workers'; omega⟩
  | loopGo k =>
    obtain ⟨h1, h2, h3, h4⟩ := h
    simp only at h1 h2 h3 h4
    exact ⟨by show k = workers'.length; omega, h2, h3,
      by show wg' = pendingDones workers' + 1; omega⟩
  | collect =>
    obtain ⟨h1, h2, h3⟩ := h
    simp only at h1 h2 h3
    exact ⟨by show workers'.length = _; omega, h2, by show wg' = pendingDones workers'; omega⟩
  | returned =>
    obtain ⟨h1, h2, h3, _, _⟩ := h
    simp only at h1 h2 h3
    exact ⟨by show workers'.length = _; omega, h2, by show wg' = pendingDones workers'; omega,
      (hr rfl).1, (hr rfl).2⟩

theorem stepWorker_inv (env : Nat → Probe) (cfgs : Config) (s s' : State) (i : Nat)
    (hI : Inv env cfgs s) (h : stepWorker s i = some s') :
    Inv env cfgs s' ∧ stepsLeft cfgs s' < stepsLeft cfgs s := by
  have hclosed := closer_of_closed env cfgs s hI
  have hdone := workers_done_of_wg_zero env cfgs s hI
  rcases s with ⟨⟨wg, ⟨cap, buf, closed⟩⟩, main, workers, closer, allResults, panicked⟩
  obtain ⟨alive, account, shape, mainOk, closerOk⟩ := hI
  simp only at alive account shape hclosed hdone
  cases hget : workers[i]? with
  | none => simp [stepWorker, hget] at h
  | some w =>
    cases w with
    | nil => simp [stepWorker, hget] at h
    | cons e rest =>
      obtain ⟨l1, l2, hs, hset⟩ := workers_split workers i (e :: rest) hget
      have hmem : (e :: rest) ∈ workers := by rw [hs]; simp
      have hne : ¬ (closer = CloserPC.close ∨ closer = CloserPC.finished) := by
        intro hc
        have := hdone hc _ hmem
        cases this
      have hopen : closed = false := by
        cases closed with
        | false => rfl
        | true => exact absurd (Or.inr (hclosed rfl)) hne
      subst hopen
      have hshape : ∀ w ∈ workers.set i rest, endsWithDone w ∧ w.length ≤ 6 := by
        intro w hw
        rw [hset rest] at hw
        rcases List.mem_append.mp hw with hw | hw
        · exact shape w (by rw [hs]; exact List.mem_append_left _ hw)
        · rcases List.mem_cons.mp hw with rfl | hw
          · have := shape _ hmem
            exact ⟨endsWithDone_tail e _ this.1, by have := this.2; simp at this; omega⟩
          · exact shape w (by rw [hs]; simp [hw])
      have hlen : (workers.set i rest).length = workers.length := List.length_set _ _ _
      have hweight : weight (workers.set i rest) + 2 = weight workers := by
        rw [hset rest, hs]
        simp only [weight_append, weight, List.length_cons]
        omega
      have hsends : pendingSends workers = pendingSends l1 ++ (sends (e :: rest) ++ pendingSends l2)
          ∧ pendingSends (workers.set i rest) = pendingSends l1 ++ (sends rest ++ pendingSends l2) := by
        rw [hset rest, hs]
        simp [pendingSends_append, pendingSends]
      have hdones : pendingDones workers = pendingDones l1 + (dones (e :: rest) + pendingDones l2)
          ∧ pendingDones (workers.set i rest) = pendingDones l1 + (dones rest + pendingDones l2) := by
        rw [hset rest, hs]
        simp [pendingDones_append, pendingDones]
      have hcloserInv : ∀ wg2 buf2, closerInv
          { a := { wg := wg2, results := { cap := cap, buf := buf2, closed := false } },
            main := main, workers := workers.set i rest, closer := closer,
            allResults := allResults, panicked := panicked } := by
        intro wg2 buf2
        cases closer with
        | absent => exact closerOk
        | wait => exact closerOk
        | close => exact absurd (Or.inl rfl) hne
        | finished => exact absurd (Or.inr rfl) hne
      have hnotret : main ≠ MainPC.returned := by
        intro hm
        subst hm
        have := mainOk.2.2.2.1
        simp at this
      rw [hlen.symm] at account
      have hmain : ∀ s2 : State, s2.main = main → s2.workers.length = workers.length →
          s2.closer = closer → s2.a.wg + pendingDones workers = wg + pendingDones s2.workers →
          mainInv cfgs s2 := fun s2 h1 h2 h3 h4 =>
        mainInv_transfer cfgs
          { a := { wg := wg, results := { cap := cap, buf := buf, closed := false } },
            main := main, workers := workers, closer := closer,
            allResults := allResults, panicked := panicked }
          s2 h1 h2 h3 h4 (fun hm => absurd hm hnotret) mainOk
      cases e with
      | send r =>
        simp only [stepWorker, hget, Bool.false_eq_true, if_false] at h
        by_cases hroom : buf.length < cap
        · simp only [hroom, if_true, Option.some.injEq] at h
          subst h
          refine ⟨⟨alive, ?_, hshape, ?_, ?_⟩, ?_⟩
          · refine List.Perm.trans ?_ account
            simp only [hsends.1, hsends.2, sends]
            rw [List.perm_iff_count]
            intro a
            simp only [List.count_append, List.count_cons, List.count_nil]
            omega
          · refine hmain _ rfl hlen rfl ?_
            simp only [hdones.1, hdones.2, dones]
          · cases closer with
            | absent => exact closerOk
            | wait => exact closerOk
            | close => exact absurd (Or.inl rfl) hne
            | finished => exact absurd (Or.inr rfl) hne
          · simp only [stepsLeft, List.length_append, List.length_singleton]
            omega
        · simp only [hroom, if_false] at h
          by_cases hh : main = MainPC.collect ∧ buf = []
          · obtain ⟨hm, hb⟩ := hh
            subst hm hb
            simp only [and_self, if_true, Option.some.injEq] at h
            subst h
            refine ⟨⟨alive, ?_, hshape, ?_, ?_⟩, ?_⟩
            · refine List.Perm.trans ?_ account
              simp only [hsends.1, hsends.2, sends]
              rw [List.perm_iff_count]
              intro a
              simp only [List.count_append, List.count_cons, List.count_nil]
              omega
            · refine hmain _ rfl hlen rfl ?_
              simp only [hdones.1, hdones.2, dones]
            · exact hcloserInv _ _
            · simp only [stepsLeft]
              omega
          · simp [hh] at h
      | wgDone =>
        have hpos : wg ≠ 0 := by
          have h1 : 0 < pendingDones workers := by
            rw [hdones.1]; simp only [dones]; omega
          cases main with
          | loopAdd k => have := mainOk.2.2.2; simp only at this; omega
          | loopGo k => have := mainOk.2.2.2; simp only at this; omega
          | collect => have := mainOk.2.2; simp only at this; omega
          | returned => exact absurd rfl hnotret
        simp only [stepWorker, hget, hpos, if_false, Option.some.injEq] at h
        subst h
        refine ⟨⟨alive, ?_, hshape, ?_, hcloserInv _ _⟩, ?_⟩
        · refine List.Perm.trans ?_ account
          simp only [hsends.1, hsends.2, sends]
          exact List.Perm.refl _
        · refine hmain _ rfl hlen rfl ?_
          simp only [hdones.1, hdones.2, dones]
          omega
        · simp only [stepsLeft]
          omega
      | osStat path =>
        simp only [stepWorker, hget, Option.some.injEq] at h
        subst h
        refine ⟨⟨alive, ?_, hshape, ?_, hcloserInv _ _⟩, ?_⟩
        · refine List.Perm.trans ?_ account
          simp only [hsends.1, hsends.2, sends]
          exact List.Perm.refl _
        · refine hmain _ rfl hlen rfl ?_
          simp only [hdones.1, hdones.2, dones]
        · simp only [stepsLeft]
          omega
      | osOpen path =>
        simp only [stepWorker, hget, Option.some.injEq] at h
        subst h
        refine ⟨⟨alive, ?_, hshape, ?_, hcloserInv _ _⟩, ?_⟩
        · refine List.Perm.trans ?_ account
          simp only [hsends.1, hsends.2, sends]
          exact List.Perm.refl _
        · refine hmain _ rfl hlen rfl ?_
          simp only [hdones.1, hdones.2, dones]
        · simp only [stepsLeft]
          omega
      | fileClose =>
        simp only [stepWorker, hget, Option.some.injEq] at h
        subst h
        refine ⟨⟨alive, ?_, hshape, ?_, hcloserInv _ _⟩, ?_⟩
        · refine List.Perm.trans ?_ account
          simp only [hsends.1, hsends.2, sends]
          exact List.Perm.refl _
        · refine hmain _ rfl hlen rfl ?_
          simp only [hdones.1, hdones.2, dones]
        · simp only [stepsLeft]
          omega
      | sleep d =>
        simp only [stepWorker, hget, Option.some.injEq] at h
        subst h
        refine ⟨⟨alive, ?_, hshape, ?_, hcloserInv _ _⟩, ?_⟩
        · refine List.Perm.trans ?_ account
          simp only [hsends.1, hsends.2, sends]
          exact List.Perm.refl _
        · refine hmain _ rfl hlen rfl ?_
          simp only [hdones.1, hdones.2, dones]
        · simp only [stepsLeft]
          omega

/-- Every step keeps the invariant and makes the progress measure smaller. -/
theorem step_inv (env : Nat → Probe) (cfgs : Config) (s s' : State) (t : Tid)
    (hI : Inv env cfgs s) (h : step env cfgs s t = some s') :
    Inv env cfgs s' ∧ stepsLeft cfgs s' < stepsLeft cfgs s := by
  have ha := hI.alive
  cases t with
  | main =>
    simp only [step, ha, Bool.false_eq_true, if_false] at h
    exact stepMain_inv env cfgs s s' hI h
  | closer =>
    simp only [step, ha, Bool.false_eq_true, if_false] at h
    exact stepCloser_inv env cfgs s s' hI h
  | worker i =>
    simp only [step, ha, Bool.false_eq_true, if_false] at h
    exact stepWorker_inv env cfgs s s' i hI h

theorem init_inv (env : Nat → Probe) (cfgs : Config) (cap : Nat) :
    Inv env cfgs (AnalyzeAll.init (newAnalyzerWith cap)) := by
  refine ⟨rfl, ?_, ?_, ?_, ?_⟩
  · simp [AnalyzeAll.init, newAnalyzerWith, pendingSends, spawnedResults]
  · intro w hw
    simp [AnalyzeAll.init] at hw
  · exact ⟨rfl, Nat.zero_le _, rfl, rfl⟩
  · exact rfl

/-! ## Absence of deadlock and termination -/

theorem mem_tids_worker (s : State) (i : Nat) (w : List Effect) (h : s.workers[i]? = some w) :
    Tid.worker i ∈ tids s := by
  have hi : i < s.workers.length := by
    rcases List.getElem?_eq_some_iff.mp h with ⟨hi, _⟩
    exact hi
  simp [tids, hi]

/-- Absence of deadlock: while `AnalyzeAll` has not returned, some goroutine can move. -/
theorem exists_enabled (env : Nat → Probe) (cfgs : Config) (s : State)
    (hI : Inv env cfgs s) (hm : s.main ≠ MainPC.returned) :
    ∃ t, t ∈ tids s ∧ (step env cfgs s t).isSome = true := by
  have hclosed := closer_of_closed env cfgs s hI
  have hmemw := mem_tids_worker s
  rcases s with ⟨⟨wg, ⟨cap, buf, closed⟩⟩, main, workers, closer, allResults, panicked⟩
  obtain ⟨alive, account, shape, mainOk, closerOk⟩ := hI
  simp only at alive account shape hclosed hm hmemw
  subst alive
  have hmainmem : Tid.main ∈ tids
      { a := { wg := wg, results := { cap := cap, buf := buf, closed := closed } },
        main := main, workers := workers, closer := closer, allResults := allResults,
        panicked := false } := by simp [tids]
  have hclosermem : Tid.closer ∈ tids
      { a := { wg := wg, results := { cap := cap, buf := buf, closed := closed } },
        main := main, workers := workers, closer := closer, allResults := allResults,
        panicked := false } := by simp [tids]
  cases main with
  | returned => exact absurd rfl hm
  | loopAdd k =>
    refine ⟨Tid.main, hmainmem, ?_⟩
    by_cases hlt : k < cfgs.length <;> simp [step, stepMain, hlt]
  | loopGo k =>
    refine ⟨Tid.main, hmainmem, ?_⟩
    have hlt : k < cfgs.length := mainOk.2.1
    simp [step, stepMain, List.getElem?_eq_getElem hlt]
  | collect =>
    cases buf with
    | cons x rest => exact ⟨Tid.main, hmainmem, by simp [step, stepMain]⟩
    | nil =>
      cases closed with
      | true => exact ⟨Tid.main, hmainmem, by simp [step, stepMain]⟩
      | false =>
        cases closer with
        | absent => exact absurd rfl mainOk.2.1
        | finished =>
          have := closerOk.1
          simp at this
        | close => exact ⟨Tid.closer, hclosermem, by simp [step, stepCloser]⟩
        | wait =>
          by_cases hz : wg = 0
          · exact ⟨Tid.closer, hclosermem, by simp [step, stepCloser, hz]⟩
          · have hwg : wg = pendingDones workers := mainOk.2.2
            obtain ⟨i, e, rest, hi⟩ := exists_nonempty_of_pendingDones_pos workers (by omega)
            refine ⟨Tid.worker i, hmemw i _ hi, ?_⟩
            cases e with
            | send r =>
              by_cases hroom : 0 < cap <;> simp [step, stepWorker, hi, hroom]
            | wgDone => simp [step, stepWorker, hi, hz]
            | osStat p => simp [step, stepWorker, hi]
            | osOpen p => simp [step, stepWorker, hi]
            | fileClose => simp [step, stepWorker, hi]
            | sleep d => simp [step, stepWorker, hi]

theorem enabled_ne_nil (env : Nat → Probe) (cfgs : Config) (s : State)
    (hI : Inv env cfgs s) (hm : s.main ≠ MainPC.returned) : enabled env cfgs s ≠ [] := by
  obtain ⟨t, ht, hs⟩ := exists_enabled env cfgs s hI hm
  intro hnil
  have : t ∈ enabled env cfgs s := by
    simp only [enabled, List.mem_filter]
    exact ⟨ht, hs⟩
  rw [hnil] at this
  simp at this

theorem getD_mem_enabled (l : List Tid) (n : Nat) (t : Tid) (h : t ∈ l) : l.getD n t ∈ l := by
  rw [List.getD_eq_getElem?_getD]
  cases hn : l[n]? with
  | none => simpa using h
  | some x =>
    simp only [Option.getD_some]
    rcases List.getElem?_eq_some_iff.mp hn with ⟨hlt, hx⟩
    exact hx ▸ List.getElem_mem hlt

/-- Under every scheduler the run reaches the return of `AnalyzeAll` within the
number of steps the progress measure allows, and the invariant holds there. -/
theorem run_returns (env : Nat → Probe) (cfgs : Config) (σ : Scheduler) (fuel : Nat) (s : State)
    (hI : Inv env cfgs s) (hf : stepsLeft cfgs s ≤ fuel) :
    Inv env cfgs (run env cfgs σ fuel s) ∧ (run env cfgs σ fuel s).main = MainPC.returned := by
  induction fuel generalizing s with
  | zero =>
    have hz : stepsLeft cfgs s = 0 := by omega
    have hm : s.main = MainPC.returned := by
      rcases s with ⟨a, main, workers, closer, allResults, panicked⟩
      cases main <;> simp [stepsLeft, mainMeasure] at hz ⊢

    exact ⟨hI, hm⟩
  | succ n ih =>
    by_cases hm : s.main = MainPC.returned
    · have hr : run env cfgs σ (n + 1) s = s := by simp [run, hm]
      rw [hr]
      exact ⟨hI, hm⟩
    · have hne := enabled_ne_nil env cfgs s hI hm
      cases hen : enabled env cfgs s with
      | nil => exact absurd hen hne
      | cons t ts =>
        have hpick : (t :: ts).getD (σ s % (ts.length + 1)) t ∈ enabled env cfgs s := by
          rw [hen]
          exact getD_mem_enabled _ _ _ (List.mem_cons_self _ _)
        have hsome : (step env cfgs s ((t :: ts).getD (σ s % (ts.length + 1)) t)).isSome = true := by
          simp only [enabled, List.mem_filter] at hpick
          exact hpick.2
        cases hst : step env cfgs s ((t :: ts).getD (σ s % (ts.length + 1)) t) with
        | none => rw [hst] at hsome; simp at hsome
        | some s2 =>
          obtain ⟨hI2, hlt⟩ := step_inv env cfgs s s2 _ hI hst
          have := ih s2 hI2 (by omega)
          simp only [run, hm, if_false, hen, hst]
          exact this

/-- The invariant holds after every sequence of steps. -/
theorem exec_inv (env : Nat → Probe) (cfgs : Config) (sched : List Tid) (s s' : State)
    (hI : Inv env cfgs s) (h : exec env cfgs s sched = some s') : Inv env cfgs s' := by
  induction sched generalizing s with
  | nil =>
    simp only [exec, Option.some.injEq] at h
    exact h ▸ hI
  | cons t ts ih =>
    cases hst : step env cfgs s t with
    | none => simp [exec, hst] at h
    | some s2 =>
      simp only [exec, hst] at h
      exact ih s2 (step_inv env cfgs s s2 t hI hst).1 h

/-- When `AnalyzeAll` has returned, the slice it returns holds exactly the
Results of the submitted tasks, the channel is closed and drained, the counter
is zero and every goroutine has finished. -/
theorem returned_facts (env : Nat → Probe) (cfgs : Config) (s : State)
    (hI : Inv env cfgs s) (hm : s.main = MainPC.returned) :
    s.allResults.Perm (expectedResults env cfgs) ∧ s.a.results.closed = true
      ∧ s.a.results.buf = [] ∧ s.a.wg = 0 ∧ s.closer = CloserPC.finished
      ∧ (∀ w ∈ s.workers, w = []) ∧ s.workers.length = cfgs.length ∧ s.panicked = false := by
  have hfin := closer_of_closed env cfgs s hI
  have hdone := workers_done_of_wg_zero env cfgs s hI
  rcases s with ⟨⟨wg, ⟨cap, buf, closed⟩⟩, main, workers, closer, allResults, panicked⟩
  obtain ⟨alive, account, shape, mainOk, closerOk⟩ := hI
  simp only at alive account shape hm hfin hdone
  subst hm
  obtain ⟨hlen, _, hwg, hcl, hbuf⟩ := mainOk
  simp only at hlen hwg hcl hbuf
  subst hcl hbuf
  have hc := hfin rfl
  subst hc
  have hall := hdone (Or.inr rfl)
  have hps := pendingSends_of_all_nil workers hall
  refine ⟨?_, rfl, rfl, closerOk.2, rfl, hall, hlen, alive⟩
  rw [hps, hlen] at account
  simpa [expectedResults] using account

/-! ## Texts -/

theorem carries_append_right (a b : String) : carries (a ++ b) b := by
  unfold carries
  rw [String.toList, String.toList, String.data_append]
  exact ⟨a.data, [], by simp⟩

theorem carries_append_left (a b : String) : carries (a ++ b) a := by
  unfold carries
  rw [String.toList, String.toList, String.data_append]
  exact ⟨[], b.data, by simp⟩

/-! ## The task runner: classification of one task -/

/-- C3: for a target that does not exist (the stat probe fails with a not-exist
error) analyzeLog sends exactly one Result, with status FAILED (a failure for
the reporter) and message "File not found."; the Result is the same for every
run on that descriptor that meets a not-exist error, whatever the random delay,
the outcome of the open call or the text of the error. -/
theorem analyzeLog_not_found (p : Probe) (cfg : LogConfig) (err : OsError)
    (hstat : p.statErr = some err) (hne : IsNotExist err = true) :
    ∃ r, sends (analyzeLog p cfg) = [r] ∧ r.Status = "FAILED" ∧ r.statusKind = StatusKind.FAILURE
      ∧ r.Message = "File not found."
      ∧ ∀ (p2 : Probe) (err2 : OsError), p2.statErr = some err2 → IsNotExist err2 = true →
          sends (analyzeLog p2 cfg) = [r] := by
  refine ⟨{ LogID := cfg.ID, FilePath := cfg.Path, Status := "FAILED",
            Message := "File not found.",
            ErrorDetails := "file not found or inaccessible: " ++ cfg.Path }, ?_, rfl, ?_, rfl, ?_⟩
  · simp [analyzeLog, hstat, hne, sends, FileNotFoundError.Error]
  · simp [Result.statusKind]
  · intro p2 err2 h1 h2
    simp [analyzeLog, h1, h2, sends, FileNotFoundError.Error]

/-- The missing target of the example scenario is classified as not found. -/
theorem analyzeLog_not_found_witness :
    ∃ r, sends (analyzeLog missingProbe missingCfg) = [r] ∧ r.Status = "FAILED"
      ∧ r.statusKind = StatusKind.FAILURE ∧ r.Message = "File not found."
      ∧ ∀ (p2 : Probe) (err2 : OsError), p2.statErr = some err2 → IsNotExist err2 = true →
          sends (analyzeLog p2 missingCfg) = [r] :=
  analyzeLog_not_found missingProbe missingCfg missingErr rfl rfl

/-- C4 fails as stated: for the missing target "/tmp/missing.log" whose stat
error reads "stat /tmp/missing.log: no such file or directory", the ErrorDetails
of the Result does not contain the text of that error. -/
theorem notFound_details_omit_cause :
    IsNotExist missingErr = true ∧ missingProbe.statErr = some missingErr
      ∧ ∃ r, sends (analyzeLog missingProbe missingCfg) = [r]
        ∧ ¬ carries r.ErrorDetails missingErr.Error := by
  refine ⟨rfl, rfl, _, rfl, ?_⟩
  decide

/-- C4, amended: for a target that does not exist, the ErrorDetails of the
Result is the text of the FileNotFoundError built from the target path, that is
"file not found or inaccessible: " followed by the path; it carries that
classification text and the path, and is the same whatever the stat error says. -/
theorem notFound_details (p : Probe) (cfg : LogConfig) (err : OsError)
    (hstat : p.statErr = some err) (hne : IsNotExist err = true) :
    ∃ r, sends (analyzeLog p cfg) = [r]
      ∧ r.ErrorDetails = FileNotFoundError.Error { Path := cfg.Path, Err := err }
      ∧ r.ErrorDetails = "file not found or inaccessible: " ++ cfg.Path
      ∧ carries r.ErrorDetails "file not found or inaccessible: "
      ∧ carries r.ErrorDetails cfg.Path
      ∧ ∀ (p2 : Probe) (err2 : OsError), p2.statErr = some err2 → IsNotExist err2 = true →
          ∃ r2, sends (analyzeLog p2 cfg) = [r2] ∧ r2.ErrorDetails = r.ErrorDetails := by
  refine ⟨{ LogID := cfg.ID, FilePath := cfg.Path, Status := "FAILED",
            Message := "File not found.",
            ErrorDetails := "file not found or inaccessible: " ++ cfg.Path }, ?_, rfl, rfl,
          carries_append_left _ _, carries_append_right _ _, ?_⟩
  · simp [analyzeLog, hstat, hne, sends, FileNotFoundError.Error]
  · intro p2 err2 h1 h2
    exact ⟨_, by simp [analyzeLog, h1, h2, sends, FileNotFoundError.Error], rfl⟩

/-- The ErrorDetails for the missing target of the example scenario. -/
theorem notFound_details_witness :
    ∃ r, sends (analyzeLog missingProbe missingCfg) = [r]
      ∧ r.ErrorDetails = FileNotFoundError.Error { Path := missingCfg.Path, Err := missingErr }
      ∧ r.ErrorDetails = "file not found or inaccessible: " ++ missingCfg.Path
      ∧ carries r.ErrorDetails "file not found or inaccessible: "
      ∧ carries r.ErrorDetails missingCfg.Path
      ∧ ∀ (p2 : Probe) (err2 : OsError), p2.statErr = some err2 → IsNotExist err2 = true →
          ∃ r2, sends (analyzeLog p2 missingCfg) = [r2] ∧ r2.ErrorDetails = r.ErrorDetails :=
  notFound_details missingProbe missingCfg missingErr rfl rfl

/-- C5 fails as stated: for the target "/var/log/secret.log" that passes the stat
probe and whose open fails with "open /var/log/secret.log: permission denied",
the ErrorDetails of the Result does not contain the text of that error. -/
theorem notAccessible_details_omit_cause :
    lockedProbe.statErr = none ∧ lockedProbe.openErr = some lockedErr
      ∧ ∃ r, sends (analyzeLog lockedProbe lockedCfg) = [r]
        ∧ ¬ carries r.ErrorDetails lockedErr.Error := by
  refine ⟨rfl, rfl, _, rfl, ?_⟩
  decide

/-- C5, amended: for a target that passes the stat probe but fails to open,
analyzeLog sends exactly one Result, with status FAILED (a failure for the
reporter), message "File not accessible." and ErrorDetails equal to the text of
the FileNotFoundError built from the target path, that is
"file not found or inaccessible: " followed by the path. -/
theorem analyzeLog_not_accessible (p : Probe) (cfg : LogConfig) (err : OsError)
    (hstat : p.statErr = none) (hopen : p.openErr = some err) :
    ∃ r, sends (analyzeLog p cfg) = [r] ∧ r.Status = "FAILED" ∧ r.statusKind = StatusKind.FAILURE
      ∧ r.Message = "File not accessible."
      ∧ r.ErrorDetails = FileNotFoundError.Error { Path := cfg.Path, Err := err }
      ∧ r.ErrorDetails = "file not found or inaccessible: " ++ cfg.Path := by
  refine ⟨{ LogID := cfg.ID, FilePath := cfg.Path, Status := "FAILED",
            Message := "File not accessible.",
            ErrorDetails := "file not found or inaccessible: " ++ cfg.Path }, ?_, rfl, ?_, rfl,
          rfl, rfl⟩
  · simp [analyzeLog, hstat, hopen, sends, FileNotFoundError.Error]
  · simp [Result.statusKind]

/-- A protected target that passes the stat probe and cannot be opened. -/
theorem analyzeLog_not_accessible_witness :
    ∃ r, sends (analyzeLog lockedProbe lockedCfg) = [r] ∧ r.Status = "FAILED"
      ∧ r.statusKind = StatusKind.FAILURE ∧ r.Message = "File not accessible."
      ∧ r.ErrorDetails = FileNotFoundError.Error { Path := lockedCfg.Path, Err := lockedErr }
      ∧ r.ErrorDetails = "file not found or inaccessible: " ++ lockedCfg.Path :=
  analyzeLog_not_accessible lockedProbe lockedCfg lockedErr rfl rfl

/-- C6: when the stat probe fails with an error other than not-exist, analyzeLog
sends exactly one Result, with status FAILED (a failure for the reporter),
message "File access error." and ErrorDetails equal to the text of the stat
error; it performs neither the open call nor the delay. -/
theorem analyzeLog_access_error (p : Probe) (cfg : LogConfig) (err : OsError)
    (hstat : p.statErr = some err) (hne : IsNotExist err = false) :
    (∃ r, sends (analyzeLog p cfg) = [r] ∧ r.Status = "FAILED" ∧ r.statusKind = StatusKind.FAILURE
      ∧ r.Message = "File access error." ∧ r.ErrorDetails = err.Error)
      ∧ ∀ e ∈ analyzeLog p cfg, e.isOpen = false ∧ e.isSleep = false := by
  refine ⟨⟨{ LogID := cfg.ID, FilePath := cfg.Path, Status := "FAILED",
             Message := "File access error.", ErrorDetails := err.Error }, ?_, rfl, ?_, rfl, rfl⟩,
          ?_⟩
  · simp [analyzeLog, hstat, hne, sends]
  · simp [Result.statusKind]
  · intro e he
    simp only [analyzeLog, hstat, hne, Bool.false_eq_true, if_false, List.mem_cons,
      List.mem_singleton, List.not_mem_nil, or_false] at he
    rcases he with rfl | rfl | rfl <;> exact ⟨rfl, rfl⟩

/-- A target whose stat probe is refused. -/
theorem analyzeLog_access_error_witness :
    (∃ r, sends (analyzeLog deniedProbe lockedCfg) = [r] ∧ r.Status = "FAILED"
      ∧ r.statusKind = StatusKind.FAILURE ∧ r.Message = "File access error."
      ∧ r.ErrorDetails = deniedErr.Error)
      ∧ ∀ e ∈ analyzeLog deniedProbe lockedCfg, e.isOpen = false ∧ e.isSleep = false :=
  analyzeLog_access_error deniedProbe lockedCfg deniedErr rfl rfl

/-- C7: when stat and open both succeed, analyzeLog sends exactly one Result:
LogID and FilePath copied from the descriptor, status OK (a success for the
reporter), message "Analysis completed successfully." and empty ErrorDetails;
this holds for every value of the random delay, so the stand-in analysis cannot
fail once the resource check has succeeded. -/
theorem analyzeLog_success (p : Probe) (cfg : LogConfig)
    (hstat : p.statErr = none) (hopen : p.openErr = none) :
    sends (analyzeLog p cfg) =
        [{ LogID := cfg.ID, FilePath := cfg.Path, Status := "OK",
           Message := "Analysis completed successfully.", ErrorDetails := "" }]
      ∧ ∀ r ∈ sends (analyzeLog p cfg), r.statusKind = StatusKind.SUCCESS := by
  have h : sends (analyzeLog p cfg) =
      [{ LogID := cfg.ID, FilePath := cfg.Path, Status := "OK",
         Message := "Analysis completed successfully.", ErrorDetails := "" }] := by
    simp [analyzeLog, hstat, hopen, sends]
  refine ⟨h, ?_⟩
  intro r hr
  rw [h] at hr
  simp only [List.mem_singleton] at hr
  subst hr
  simp [Result.statusKind]

/-- The readable target of the example scenario succeeds. -/
theorem analyzeLog_success_witness :
    sends (analyzeLog readableProbe readableCfg) =
        [{ LogID := readableCfg.ID, FilePath := readableCfg.Path, Status := "OK",
           Message := "Analysis completed successfully.", ErrorDetails := "" }]
      ∧ ∀ r ∈ sends (analyzeLog readableProbe readableCfg), r.statusKind = StatusKind.SUCCESS :=
  analyzeLog_success readableProbe readableCfg rfl rfl

/-- C8: for every value r that rand.Intn(151) can return (r < 151) the simulated
delay is 50 + r milliseconds and lies in the closed range from 50 to 200
milliseconds; 50 is attained at r = 0 and 200 at r = 150; the product does not
overflow a 64-bit duration. It is the delay analyzeLog sleeps for: when stat and
open both succeed, analyzeLog performs exactly one sleep, of that duration,
after closing the file and before sending its Result, so every delay it
performs lies in the range, and the runs drawing 0 and 150 sleep for exactly 50
and 200 milliseconds. -/
theorem sleepDuration_range (r : Nat) (hr : r < 151) :
    sleepDuration r = (50 + r) * Millisecond
      ∧ 50 * Millisecond ≤ sleepDuration r ∧ sleepDuration r ≤ 200 * Millisecond
      ∧ sleepDuration 0 = 50 * Millisecond ∧ sleepDuration 150 = 200 * Millisecond
      ∧ sleepDuration r < 2 ^ 63
      ∧ (∀ (p : Probe) (cfg : LogConfig) (d : Nat), p.intn = r →
          Effect.sleep d ∈ analyzeLog p cfg → d = sleepDuration r)
      ∧ (∀ (p : Probe) (cfg : LogConfig), p.intn = r → p.statErr = none → p.openErr = none →
          Effect.sleep (sleepDuration r) ∈ analyzeLog p cfg
            ∧ analyzeLog p cfg =
                [Effect.osStat cfg.Path, Effect.osOpen cfg.Path, Effect.fileClose,
                 Effect.sleep (sleepDuration r),
                 Effect.send { LogID := cfg.ID, FilePath := cfg.Path, Status := "OK",
                               Message := "Analysis completed successfully.",
                               ErrorDetails := "" },
                 Effect.wgDone]
            ∧ (analyzeLog p cfg).filter Effect.isSleep = [Effect.sleep (sleepDuration r)]
            ∧ ∃ d, Effect.sleep d ∈ analyzeLog p cfg
                ∧ 50 * Millisecond ≤ d ∧ d ≤ 200 * Millisecond)
      ∧ ∀ (cfg : LogConfig),
          Effect.sleep (50 * Millisecond)
              ∈ analyzeLog { statErr := none, openErr := none, intn := 0 } cfg
            ∧ Effect.sleep (200 * Millisecond)
              ∈ analyzeLog { statErr := none, openErr := none, intn := 150 } cfg := by
  have hlo : 50 * Millisecond ≤ sleepDuration r := by
    simp only [sleepDuration, Millisecond]; omega
  have hhi : sleepDuration r ≤ 200 * Millisecond := by
    simp only [sleepDuration, Millisecond]; omega
  refine ⟨rfl, hlo, hhi, rfl, rfl, ?_, ?_, ?_, ?_⟩
  · simp only [sleepDuration, Millisecond]; omega
  · intro p cfg d hp hmem
    rcases p with ⟨st, op, n⟩
    simp only at hp
    subst hp
    unfold analyzeLog at hmem
    cases st with
    | some err => by_cases hn : IsNotExist err = true <;> simp [hn] at hmem
    | none =>
      cases op with
      | some err => simp at hmem
      | none => simpa using hmem
  · intro p cfg hp hstat hopen
    rcases p with ⟨st, op, n⟩
    simp only at hp hstat hopen
    subst hp hstat hopen
    have hseq : analyzeLog { statErr := none, openErr := none, intn := n } cfg =
        [Effect.osStat cfg.Path, Effect.osOpen cfg.Path, Effect.fileClose,
         Effect.sleep (sleepDuration n),
         Effect.send { LogID := cfg.ID, FilePath := cfg.Path, Status := "OK",
                       Message := "Analysis completed successfully.",
                       ErrorDetails := "" },
         Effect.wgDone] := rfl
    have hmem : Effect.sleep (sleepDuration n)
        ∈ analyzeLog { statErr := none, openErr := none, intn := n } cfg := by
      rw [hseq]; simp
    refine ⟨hmem, hseq, ?_, sleepDuration n, hmem, hlo, hhi⟩
    rw [hseq]
    simp [List.filter, Effect.isSleep]
  · intro cfg
    constructor
    · show Effect.sleep (50 * Millisecond) ∈
        [Effect.osStat cfg.Path, Effect.osOpen cfg.Path, Effect.fileClose,
         Effect.sleep (sleepDuration 0), _, Effect.wgDone]
      simp [sleepDuration]
    · show Effect.sleep (200 * Millisecond) ∈
        [Effect.osStat cfg.Path, Effect.osOpen cfg.Path, Effect.fileClose,
         Effect.sleep (sleepDuration 150), _, Effect.wgDone]
      simp [sleepDuration]

/-- The readable target of the example scenario draws 75: its run sleeps once,
for 125 milliseconds, inside the range. -/
theorem sleepDuration_range_witness :
    readableProbe.intn = 75 ∧ readableProbe.statErr = none ∧ readableProbe.openErr = none
      ∧ sleepDuration 75 = 125 * Millisecond
      ∧ 50 * Millisecond ≤ sleepDuration 75 ∧ sleepDuration 75 ≤ 200 * Millisecond
      ∧ Effect.sleep (sleepDuration 75) ∈ analyzeLog readableProbe readableCfg
      ∧ (analyzeLog readableProbe readableCfg).filter Effect.isSleep
          = [Effect.sleep (sleepDuration 75)]
      ∧ ∀ (d : Nat), Effect.sleep d ∈ analyzeLog readableProbe readableCfg →
          d = sleepDuration 75 :=
  ⟨rfl, rfl, rfl, (sleepDuration_range 75 (by decide)).1,
    (sleepDuration_range 75 (by decide)).2.1,
    (sleepDuration_range 75 (by decide)).2.2.1,
    ((sleepDuration_range 75 (by decide)).2.2.2.2.2.2.2.1 readableProbe readableCfg
      rfl rfl rfl).1,
    ((sleepDuration_range 75 (by decide)).2.2.2.2.2.2.2.1 readableProbe readableCfg
      rfl rfl rfl).2.2.1,
    fun d hd => (sleepDuration_range 75 (by decide)).2.2.2.2.2.2.1 readableProbe readableCfg d
      rfl hd⟩

/-! ## The engine on a fresh Analyzer -/

/-- On a fresh Analyzer of any capacity and under every scheduler, the run of
`AnalyzeAll` ends with the calling goroutine returned, in a state that satisfies
the invariant. -/
theorem final_fresh (env : Nat → Probe) (σ : Scheduler) (cap : Nat) (cfgs : Config) :
    Inv env cfgs (AnalyzeAll.final env σ (newAnalyzerWith cap) cfgs)
      ∧ (AnalyzeAll.final env σ (newAnalyzerWith cap) cfgs).main = MainPC.returned := by
  apply run_returns env cfgs σ _ _ (init_inv env cfgs cap)
  simp [stepsLeft, AnalyzeAll.init, AnalyzeAll.fuel, newAnalyzerWith, mainMeasure, closerMeasure,
    weight]

theorem AnalyzeAll_fresh (env : Nat → Probe) (σ : Scheduler) (cap : Nat) (cfgs : Config) :
    AnalyzeAll env σ (newAnalyzerWith cap) cfgs
      = some (AnalyzeAll.final env σ (newAnalyzerWith cap) cfgs).allResults := by
  simp [AnalyzeAll, (final_fresh env σ cap cfgs).2]

/-- On an Analyzer whose channel is already closed and empty, no step ever adds a
Result to the slice the call returns. -/
theorem step_closed_collects_nothing (env : Nat → Probe) (cfgs : Config) (s s' : State)
    (t : Tid) (hc : s.a.results.closed = true) (hb : s.a.results.buf = [])
    (hr : s.allResults = []) (h : step env cfgs s t = some s') :
    s'.a.results.closed = true ∧ s'.a.results.buf = [] ∧ s'.allResults = [] := by
  rcases s with ⟨⟨wg, ⟨cap, buf, closed⟩⟩, main, workers, closer, allResults, panicked⟩
  simp only at hc hb hr
  subst hc hb hr
  cases panicked with
  | true => simp [step] at h
  | false =>
    cases t with
    | main =>
      simp only [step, Bool.false_eq_true, if_false] at h
      cases main with
      | loopAdd k =>
        by_cases hlt : k < cfgs.length <;>
          simp only [stepMain, hlt, if_true, if_false, Option.some.injEq] at h <;>
          subst h <;> exact ⟨rfl, rfl, rfl⟩
      | loopGo k =>
        cases hg : cfgs[k]? with
        | none => simp [stepMain, hg] at h
        | some c =>
          simp only [stepMain, hg, Option.some.injEq] at h
          subst h
          exact ⟨rfl, rfl, rfl⟩
      | collect =>
        simp only [stepMain, if_true, Option.some.injEq] at h
        subst h
        exact ⟨rfl, rfl, rfl⟩
      | returned => simp [stepMain] at h
    | closer =>
      simp only [step, Bool.false_eq_true, if_false] at h
      cases closer with
      | absent => simp [stepCloser] at h
      | finished => simp [stepCloser] at h
      | wait =>
        by_cases hz : wg = 0
        · simp only [stepCloser, hz, if_true, Option.some.injEq] at h
          subst h
          exact ⟨rfl, rfl, rfl⟩
        · simp [stepCloser, hz] at h
      | close =>
        simp only [stepCloser, if_true, Option.some.injEq] at h
        subst h
        exact ⟨rfl, rfl, rfl⟩
    | worker i =>
      simp only [step, Bool.false_eq_true, if_false] at h
      cases hget : workers[i]? with
      | none => simp [stepWorker, hget] at h
      | some w =>
        cases w with
        | nil => simp [stepWorker, hget] at h
        | cons e rest =>
          cases e with
          | send r =>
            simp only [stepWorker, hget, if_true, Option.some.injEq] at h
            subst h
            exact ⟨rfl, rfl, rfl⟩
          | wgDone =>
            by_cases hz : wg = 0
            · simp only [stepWorker, hget, hz, if_true, Option.some.injEq] at h
              subst h
              exact ⟨rfl, rfl, rfl⟩
            · simp only [stepWorker, hget, hz, if_false, Option.some.injEq] at h
              subst h
              exact ⟨rfl, rfl, rfl⟩
          | osStat p =>
            simp only [stepWorker, hget, Option.some.injEq] at h
            subst h
            exact ⟨rfl, rfl, rfl⟩
          | osOpen p =>
            simp only [stepWorker, hget, Option.some.injEq] at h
            subst h
            exact ⟨rfl, rfl, rfl⟩
          | fileClose =>
            simp only [stepWorker, hget, Option.some.injEq] at h
            subst h
            exact ⟨rfl, rfl, rfl⟩
          | sleep d =>
            simp only [stepWorker, hget, Option.some.injEq] at h
            subst h
            exact ⟨rfl, rfl, rfl⟩

theorem run_closed_collects_nothing (env : Nat → Probe) (cfgs : Config) (σ : Scheduler)
    (fuel : Nat) (s : State) (hc : s.a.results.closed = true) (hb : s.a.results.buf = [])
    (hr : s.allResults = []) : (run env cfgs σ fuel s).allResults = [] := by
  induction fuel generalizing s with
  | zero => simpa [run] using hr
  | succ n ih =>
    by_cases hm : s.main = MainPC.returned
    · simpa [run, hm] using hr
    · cases hen : enabled env cfgs s with
      | nil => simpa [run, hm, hen] using hr
      | cons t ts =>
        cases hst : step env cfgs s ((t :: ts).getD (σ s % (ts.length + 1)) t) with
        | none =>
          simp only [run, hm, if_false, hen, hst]
          exact hr
        | some s2 =>
          obtain ⟨h1, h2, h3⟩ := step_closed_collects_nothing env cfgs s s2 _ hc hb hr hst
          simp only [run, hm, if_false, hen, hst]
          exact ih s2 h1 h2 h3

/-- A call of `AnalyzeAll` on an Analyzer whose channel is already closed and
empty returns no Result under any scheduler, if it returns at all. -/
theorem AnalyzeAll_closed_returns_nothing (env : Nat → Probe) (σ : Scheduler) (a : Analyzer)
    (cfgs : Config) (hc : a.results.closed = true) (hb : a.results.buf = [])
    (rs : List Result) (h : AnalyzeAll env σ a cfgs = some rs) : rs = [] := by
  have h0 := run_closed_collects_nothing env cfgs σ (AnalyzeAll.fuel a cfgs) (AnalyzeAll.init a)
    hc hb rfl
  unfold AnalyzeAll at h
  simp only at h
  split at h
  · simp only [Option.some.injEq] at h
    rw [← h]
    exact h0
  · cases h

/-! ## The engine: the claims -/

/-- C1: for every finite sequence of task descriptors, the empty one included,
every outcome of the external calls and every scheduler, AnalyzeAll called on a
fresh Analyzer returns, and the slice it returns has exactly as many Results as
there are descriptors; on the empty sequence it returns the empty slice. -/
theorem AnalyzeAll_length (env : Nat → Probe) (σ : Scheduler) (cfgs : Config) :
    (∃ rs, AnalyzeAll env σ NewAnalyzer cfgs = some rs ∧ rs.length = cfgs.length)
      ∧ AnalyzeAll env σ NewAnalyzer [] = some [] := by
  have key : ∀ cs : Config, ∃ rs, AnalyzeAll env σ NewAnalyzer cs = some rs
      ∧ rs.length = cs.length := by
    intro cs
    obtain ⟨hI, hm⟩ := final_fresh env σ 100 cs
    have hp := (returned_facts env cs _ hI hm).1
    refine ⟨_, AnalyzeAll_fresh env σ 100 cs, ?_⟩
    rw [hp.length_eq]
    simp [expectedResults, spawnedResults]
  refine ⟨key cfgs, ?_⟩
  obtain ⟨rs, h1, h2⟩ := key []
  rw [h1]
  simp only [List.length_nil, List.length_eq_zero] at h2
  rw [h2]

/-- C2: for every finite sequence of task descriptors, every outcome of the
external calls and every completion order (every scheduler, and every
interleaving that ends with the call returned), the Results returned by
AnalyzeAll on a fresh Analyzer are a permutation of the Results the tasks
compute, each from its own descriptor and probe alone, so their (LogID, FilePath)
pairs are a permutation of the (ID, Path) pairs of the descriptors; the Result
of a task is in the returned slice whatever the other tasks meet. -/
theorem AnalyzeAll_one_result_per_task (env : Nat → Probe) (σ : Scheduler) (cfgs : Config) :
    (∃ rs, AnalyzeAll env σ NewAnalyzer cfgs = some rs
        ∧ rs.Perm (expectedResults env cfgs)
        ∧ (rs.map Result.key).Perm (cfgs.map LogConfig.key)
        ∧ ∀ (i : Nat) (env2 : Nat → Probe), i < cfgs.length → env2 i = env i →
            taskResult env2 cfgs i ∈ rs)
      ∧ ∀ (sched : List Tid) (s : State),
          exec env cfgs (AnalyzeAll.init NewAnalyzer) sched = some s →
          s.main = MainPC.returned →
          s.allResults.Perm (expectedResults env cfgs)
            ∧ (s.allResults.map Result.key).Perm (cfgs.map LogConfig.key) := by
  constructor
  · obtain ⟨hI, hm⟩ := final_fresh env σ 100 cfgs
    have hp := (returned_facts env cfgs _ hI hm).1
    refine ⟨_, AnalyzeAll_fresh env σ 100 cfgs, hp, ?_, ?_⟩
    · rw [← expectedResults_keys env cfgs]
      exact hp.map _
    · intro i env2 hi he
      apply hp.symm.subset
      have : taskResult env2 cfgs i = taskResult env cfgs i := by simp [taskResult, he]
      rw [this]
      simp only [expectedResults, spawnedResults, List.mem_map, List.mem_range]
      exact ⟨i, hi, rfl⟩
  · intro sched s he hm
    have hI := exec_inv env cfgs sched _ s (init_inv env cfgs 100) he
    have hp := (returned_facts env cfgs s hI hm).1
    refine ⟨hp, ?_⟩
    rw [← expectedResults_keys env cfgs]
    exact hp.map _

/-- An interleaving of the example scenario that returns the second task first. -/
theorem AnalyzeAll_one_result_per_task_witness :
    exec exEnv exCfgs (AnalyzeAll.init NewAnalyzer) exSched = some exFinal
      ∧ exFinal.main = MainPC.returned
      ∧ exFinal.allResults.Perm (expectedResults exEnv exCfgs)
      ∧ (exFinal.allResults.map Result.key).Perm (exCfgs.map LogConfig.key) :=
  ⟨rfl, rfl, (AnalyzeAll_one_result_per_task exEnv mainFirst exCfgs).2 exSched exFinal rfl rfl⟩

/-- C9 fails as stated: after a first call of AnalyzeAll on a fresh Analyzer has
returned (here for the empty sequence), the Analyzer keeps the channel that call
closed, and a second call on it with one descriptor returns the empty slice:
zero Results for one descriptor. -/
theorem second_call_returns_nothing :
    (AnalyzeAll.final exEnv mainFirst NewAnalyzer []).main = MainPC.returned
      ∧ (AnalyzeAll.final exEnv mainFirst NewAnalyzer []).a
          = { wg := 0, results := { cap := 100, buf := [], closed := true } }
      ∧ AnalyzeAll exEnv mainFirst (AnalyzeAll.final exEnv mainFirst NewAnalyzer []).a [missingCfg]
          = some []
      ∧ ¬ ∃ rs, AnalyzeAll exEnv mainFirst
            (AnalyzeAll.final exEnv mainFirst NewAnalyzer []).a [missingCfg] = some rs
          ∧ rs.length = [missingCfg].length := by
  have h : AnalyzeAll exEnv mainFirst (AnalyzeAll.final exEnv mainFirst NewAnalyzer []).a
      [missingCfg] = some [] := rfl
  refine ⟨rfl, rfl, h, ?_⟩
  rintro ⟨rs, h1, h2⟩
  rw [h] at h1
  simp only [Option.some.injEq] at h1
  subst h1
  simp at h2

/-- C9, amended: the session state belongs to the Analyzer. NewAnalyzer creates
it (counter zero, channel of capacity 100 open and empty) and AnalyzeAll starts
on it as it is; under every scheduler the call on a fresh Analyzer returns, and
when it returns the state is retired: the counter is zero, the channel is closed
and drained, the closing goroutine and every task goroutine have finished and no
goroutine has panicked; the call returns exactly one Result per descriptor. -/
theorem AnalyzeAll_retires_session (env : Nat → Probe) (σ : Scheduler) (cfgs : Config) :
    NewAnalyzer = { wg := 0, results := { cap := 100, buf := [], closed := false } }
      ∧ (AnalyzeAll.init NewAnalyzer).a = NewAnalyzer
      ∧ (AnalyzeAll.final env σ NewAnalyzer cfgs).main = MainPC.returned
      ∧ (AnalyzeAll.final env σ NewAnalyzer cfgs).a.wg = 0
      ∧ (AnalyzeAll.final env σ NewAnalyzer cfgs).a.results.closed = true
      ∧ (AnalyzeAll.final env σ NewAnalyzer cfgs).a.results.buf = []
      ∧ (AnalyzeAll.final env σ NewAnalyzer cfgs).closer = CloserPC.finished
      ∧ (AnalyzeAll.final env σ NewAnalyzer cfgs).workers.length = cfgs.length
      ∧ (∀ w ∈ (AnalyzeAll.final env σ NewAnalyzer cfgs).workers, w = [])
      ∧ (AnalyzeAll.final env σ NewAnalyzer cfgs).panicked = false
      ∧ ∃ rs, AnalyzeAll env σ NewAnalyzer cfgs = some rs ∧ rs.length = cfgs.length
          ∧ rs.Perm (expectedResults env cfgs) := by
  obtain ⟨hI, hm⟩ := final_fresh env σ 100 cfgs
  obtain ⟨hp, hcl, hbuf, hwg, hc, hall, hlen, hpan⟩ := returned_facts env cfgs _ hI hm
  refine ⟨rfl, rfl, hm, hwg, hcl, hbuf, hc, hlen, hall, hpan, _, AnalyzeAll_fresh env σ 100 cfgs,
    ?_, hp⟩
  rw [hp.length_eq]
  simp [expectedResults, spawnedResults]

/-- In a state reached on a fresh Analyzer, a closed channel means that every
task has been launched and has finished. -/
theorem closed_facts (env : Nat → Probe) (cfgs : Config) (s : State)
    (hI : Inv env cfgs s) (hc : s.a.results.closed = true) :
    s.workers.length = cfgs.length ∧ (∀ w ∈ s.workers, w = []) ∧ s.a.wg = 0 := by
  have hfin := closer_of_closed env cfgs s hI hc
  have hdone := workers_done_of_wg_zero env cfgs s hI (Or.inr hfin)
  rcases s with ⟨⟨wg, ⟨cap, buf, closed⟩⟩, main, workers, closer, allResults, panicked⟩
  obtain ⟨alive, account, shape, mainOk, closerOk⟩ := hI
  simp only at hfin hdone hc
  subst hfin
  refine ⟨?_, hdone, closerOk.2⟩
  cases main with
  | loopAdd k => exact absurd mainOk.2.2.1 (by simp)
  | loopGo k => exact absurd mainOk.2.2.1 (by simp)
  | collect => exact mainOk.1
  | returned => exact mainOk.1

/-- C10: for every number of tasks and every channel capacity, zero included,
under every scheduler AnalyzeAll on a fresh Analyzer returns, and returns all
the Results, one per task. Every task sends once and signals completion once. A
task that finds the channel full, with no receiver waiting, cannot move and
keeps its Result. In every reachable state each Result of a launched task is in
exactly one place (still to be sent, in the buffer, or collected) and no
goroutine has panicked; the channel is closed only when every task has been
launched and has finished. -/
theorem AnalyzeAll_any_capacity (env : Nat → Probe) (σ : Scheduler) (cap : Nat) (cfgs : Config) :
    (∃ rs, AnalyzeAll env σ (newAnalyzerWith cap) cfgs = some rs ∧ rs.length = cfgs.length
        ∧ rs.Perm (expectedResults env cfgs))
      ∧ (∀ (p : Probe) (cfg : LogConfig),
          dones (analyzeLog p cfg) = 1 ∧ (sends (analyzeLog p cfg)).length = 1)
      ∧ (∀ (s : State) (i : Nat) (r : Result) (rest : List Effect),
          s.workers[i]? = some (Effect.send r :: rest) →
          s.a.results.closed = false →
          s.a.results.cap ≤ s.a.results.buf.length →
          ¬ (s.main = MainPC.collect ∧ s.a.results.buf = []) →
          step env cfgs s (Tid.worker i) = none)
      ∧ ∀ (sched : List Tid) (s : State),
          exec env cfgs (AnalyzeAll.init (newAnalyzerWith cap)) sched = some s →
          (s.allResults ++ s.a.results.buf ++ pendingSends s.workers).Perm
              (spawnedResults env cfgs s.workers.length)
            ∧ s.panicked = false
            ∧ (s.a.results.closed = true →
                s.workers.length = cfgs.length ∧ (∀ w ∈ s.workers, w = []) ∧ s.a.wg = 0) := by
  refine ⟨?_, ?_, ?_, ?_⟩
  · obtain ⟨hI, hm⟩ := final_fresh env σ cap cfgs
    have hp := (returned_facts env cfgs _ hI hm).1
    refine ⟨_, AnalyzeAll_fresh env σ cap cfgs, ?_, hp⟩
    rw [hp.length_eq]
    simp [expectedResults, spawnedResults]
  · intro p cfg
    refine ⟨analyzeLog_dones p cfg, ?_⟩
    rw [analyzeLog_sends_one p cfg]
    rfl
  · intro s i r rest hget hcl hfull hno
    have hroom : ¬ s.a.results.buf.length < s.a.results.cap := by omega
    simp only [step, stepWorker, hget, hcl, Bool.false_eq_true, if_false, hroom, hno]
    cases s.panicked <;> simp
  · intro sched s he
    have hI := exec_inv env cfgs sched _ s (init_inv env cfgs cap) he
    exact ⟨hI.account, hI.alive, closed_facts env cfgs s hI⟩

/-- The example scenario on an unbuffered channel: a blocked send, and a complete run. -/
theorem AnalyzeAll_any_capacity_witness :
    step exEnv exCfgs exBlocked (Tid.worker 0) = none
      ∧ (exFinal0.allResults ++ exFinal0.a.results.buf ++ pendingSends exFinal0.workers).Perm
          (spawnedResults exEnv exCfgs exFinal0.workers.length)
      ∧ exFinal0.panicked = false
      ∧ exFinal0.workers.length = exCfgs.length ∧ (∀ w ∈ exFinal0.workers, w = [])
      ∧ exFinal0.a.wg = 0 :=
  ⟨(AnalyzeAll_any_capacity exEnv mainFirst 0 exCfgs).2.2.1 exBlocked 0
      { LogID := "a", FilePath := "/tmp/exists.log", Status := "OK",
        Message := "Analysis completed successfully.", ErrorDetails := "" }
      [Effect.wgDone] rfl rfl (by decide) (by decide),
    ((AnalyzeAll_any_capacity exEnv mainFirst 0 exCfgs).2.2.2 exSched0 exFinal0 rfl).1,
    ((AnalyzeAll_any_capacity exEnv mainFirst 0 exCfgs).2.2.2 exSched0 exFinal0 rfl).2.1,
    ((AnalyzeAll_any_capacity exEnv mainFirst 0 exCfgs).2.2.2 exSched0 exFinal0 rfl).2.2 rfl⟩

end Loganizer
